import Mathlib

/-!
Verification of the munchies command-line dispatch framework.

This file gives a shallow embedding of the framework's core: the error
taxonomy (`src/errors.ts`), the option-configuration merge
(`src/CommandUtil.ts`, `addOptions`), the command descriptor
(`src/CommandSpec.ts`), the per-command handler contract
(`src/NamedCommand.ts`), and the dispatcher (`src/CommandRunner.ts`:
`addCommands`, `run`, `doDefaultCommand`, `getHelp` and its pieces).

External collaborators are modelled abstractly, as the spec directs:
the low-level option-token parser (minimist) and the help line-wrapper
(option-help's `wrapText`) are fields of an `Env` record, quantified over
in the theorems.  JavaScript strings are modelled as Lean `String`s with
per-character case mapping (`jsToLower`/`jsToUpper`); indices and lengths
coincide with JavaScript's UTF-16 view on the ASCII data the framework
manipulates.  Exceptions are modelled with `Except`; the single `next`
completion callback of `run` is modelled by the `RunResult` outcome type.
-/

namespace Munchies

/-- Error taxonomy of `src/errors.ts`, as a tagged union.  `commandError`,
`commandUsageError` and `unexpectedArgError` are the classes
`CommandError`, `CommandUsageError extends CommandError` and
`UnexpectedArgError extends CommandUsageError`; `plainError` stands for a
raised value that is an `Error` but not a `CommandError` (for example the
`new Error(...)` in the default `doDefaultCommand`). -/
inductive JsError where
  | commandError (msg : String)
  | commandUsageError (msg : String)
  | unexpectedArgError (arg : String)
  | plainError (msg : String)
deriving DecidableEq

/-- `err instanceof CommandError`: true for `CommandError` and both of its
subclasses, false for a plain `Error`. -/
def JsError.isCommandError : JsError → Bool
  | .commandError _ => true
  | .commandUsageError _ => true
  | .unexpectedArgError _ => true
  | .plainError _ => false

/-- `err instanceof CommandUsageError`: true for `CommandUsageError` and its
subclass `UnexpectedArgError`. -/
def JsError.isCommandUsageError : JsError → Bool
  | .commandError _ => false
  | .commandUsageError _ => true
  | .unexpectedArgError _ => true
  | .plainError _ => false

/-- The `message` property of each error.  The `UnexpectedArgError`
constructor builds `'UnexpectedArgument: "' + arg + '"'`. -/
def JsError.message : JsError → String
  | .commandError m => m
  | .commandUsageError m => m
  | .unexpectedArgError a => "UnexpectedArgument: \"" ++ a ++ "\""
  | .plainError m => m

/-- Per-character lower-casing, modelling `String.prototype.toLowerCase`. -/
def jsToLower (s : String) : String := ⟨s.data.map Char.toLower⟩

/-- Per-character upper-casing, modelling `String.prototype.toUpperCase`. -/
def jsToUpper (s : String) : String := ⟨s.data.map Char.toUpper⟩

/-- `s.length` of a JavaScript string (character count on ASCII data). -/
def jsLength (s : String) : Nat := s.data.length

/-- `s.substr(n)`: the suffix of `s` from character index `n` on. -/
def jsSubstr (s : String) (n : Nat) : String := ⟨s.data.drop n⟩

/-- A value that is either a single string or an array of strings, as the
minimist `boolean` and `string` configuration keys allow. -/
inductive StrOrList where
  | one (s : String)
  | many (l : List String)
deriving DecidableEq

/-- The accumulated minimist configuration (`configOptions` in `run`):
`boolean` is initialized as an array and `alias` as an object, while
`string` and `default` start out absent (`undefined`).  JavaScript
objects are modelled as association lists in insertion order. -/
structure ToOpts where
  boolean : List String
  aliases : List (String × String)
  string : Option (List String)
  default : Option (List (String × String))
deriving DecidableEq

/-- A contributor's partial option-declaration set (the `fromOptions`
argument of `CommandUtil.addOptions`); every key may be absent. -/
structure FromOpts where
  aliases : Option (List (String × String))
  boolean : Option StrOrList
  string : Option StrOrList
  default : Option (List (String × String))
deriving DecidableEq

/-- Setting one property on a JavaScript object modelled as an association
list: overwrite the value if the key is present, else append the pair. -/
def setKey (m : List (String × String)) (k v : String) : List (String × String) :=
  if m.any (fun kv => kv.1 = k) then
    m.map (fun kv => if kv.1 = k then (k, v) else kv)
  else
    m ++ [(k, v)]

/-- `Object.assign(target, source)`: copy every enumerable property of
`source` onto `target` in insertion order, overwriting existing keys. -/
def assignObj (target source : List (String × String)) : List (String × String) :=
  source.foldl (fun acc kv => setKey acc kv.1 kv.2) target

/-- Property read on a JavaScript object modelled as an association list
(first binding wins; objects built by `setKey` keep keys unique). -/
def lookupKey : List (String × String) → String → Option String
  | [], _ => none
  | kv :: rest, k => if kv.1 = k then some kv.2 else lookupKey rest k

/-- `CommandUtil.addOptions(toOptions, fromOptions)` of
`src/CommandUtil.ts`.  For each key present in `fromOptions`:
`alias` is `Object.assign`ed onto the existing alias object; `boolean`
is pushed (single name) or concatenated (array) onto the existing array;
`default` is `Object.assign`ed after initializing the target object when
absent; `string` is pushed or concatenated after initializing the target
array when absent.  The categories touch disjoint fields, so the fixed
processing order here is observationally the same as the source's
`for key in fromOptions` insertion order.  The source's `default:` switch
case writes unknown keys back onto `fromOptions` itself (a no-op for the
merge), so unknown keys never reach `toOptions`; the model's `FromOpts`
carries only the four handled keys. -/
def CommandUtil.addOptions (toOptions : ToOpts) (fromOptions : FromOpts) : ToOpts :=
  let t1 := match fromOptions.aliases with
    | none => toOptions
    | some al => { toOptions with aliases := assignObj toOptions.aliases al }
  let t2 := match fromOptions.boolean with
    | none => t1
    | some (.one s) => { t1 with boolean := t1.boolean ++ [s] }
    | some (.many l) => { t1 with boolean := t1.boolean ++ l }
  let t3 := match fromOptions.default with
    | none => t2
    | some d => { t2 with default := some (assignObj (t2.default.getD []) d) }
  match fromOptions.string with
    | none => t3
    | some (.one s) => { t3 with string := some (t3.string.getD [] ++ [s]) }
    | some (.many l) => { t3 with string := some (t3.string.getD [] ++ l) }

/-- The boolean-flag names a contributor declares (singleton for the
single-string form). -/
def FromOpts.boolNames (f : FromOpts) : List String :=
  match f.boolean with
  | none => []
  | some (.one s) => [s]
  | some (.many l) => l

/-- The string-flag names a contributor declares. -/
def FromOpts.stringNames (f : FromOpts) : List String :=
  match f.string with
  | none => []
  | some (.one s) => [s]
  | some (.many l) => l

/-- The structured output of minimist that `run` observes: the `help`
flag (boolean, aliased from `h`), and `args._`, the leftover positional
list.  Positionals are modelled after `run`'s explicit
`args._ = args._.map(String)` coercion, so they are strings. -/
structure ParsedArgs where
  help : Bool
  positionals : List String
deriving DecidableEq

/-- The external collaborators of the dispatcher, per the spec's scope:
`minimist argv config` is the low-level option-token parser, and
`wrapText text width` is option-help's line wrapper (always invoked with
its third argument `true` in this code, so that flag is dropped). -/
structure Env where
  minimist : List String → ToOpts → ParsedArgs
  wrapText : String → Nat → String

/-- The handler contract of `src/NamedCommand.ts`, as the capability set
the dispatcher invokes: `addOptions` extends the minimist configuration
(default: identity), `parseArgs` validates and consumes arguments and may
raise (default: returns `args` unchanged), and `getHelp` renders this
command's help text.  `doCommand` is the hand-off point of `run` and is
represented by the `RunResult.execCommand` outcome rather than by a
field, since every claim concerns what happens up to (or instead of) its
invocation. -/
structure NamedCommand where
  addOptions : ToOpts → ToOpts
  parseArgs : ParsedArgs → Except JsError ParsedArgs
  getHelp : Nat → String

/-- A command descriptor (`src/CommandSpec.ts`): name, normalized name,
syntax string, summary, the help-grouping flag set by `addCommands`, and
the `createCommand()` factory product. -/
structure CommandSpec where
  name : String
  normName : String
  stx : String
  summary : String
  firstOfGroup : Bool
  createCommand : NamedCommand

/-- First match of the regex `/[^ ]+/`: the first maximal run of
non-space characters, or `none` when the string has no such run. -/
def firstToken (s : String) : Option String :=
  let t := (s.data.dropWhile (fun c => c = ' ')).takeWhile (fun c => c ≠ ' ')
  if t.isEmpty then none else some ⟨t⟩

/-- The `CommandSpec` constructor: extracts the name as the first
non-space run of the syntax string, fails when there is none or when it
starts with a dash, and case-folds it into `_normName`.  `_firstOfGroup`
is left unset (`false`) until `addCommands` assigns it. -/
def CommandSpec.make (stx summary : String) (create : NamedCommand) :
    Except String CommandSpec :=
  match firstToken stx with
  | none => .error ("\x27" ++ stx ++ "\x27 is missing a command name")
  | some nm =>
    if nm.data.head? = some '-' then
      .error ("Command name \x27" ++ nm ++ " cannot start with a dash")
    else
      .ok { name := nm, normName := jsToLower nm, stx := stx,
            summary := summary, firstOfGroup := false, createCommand := create }

/-- The dispatcher's configuration and overridable default-path hooks
(`src/CommandRunner.ts`): the command registry, the help wrap width
(default 80), `addDefaultOptions` (default: identity) and
`parseDefaultArgs` (default: returns `args` unchanged). -/
structure CommandRunner where
  commandSpecs : List CommandSpec
  helpWrapWidth : Nat
  addDefaultOptions : ToOpts → ToOpts
  parseDefaultArgs : ParsedArgs → Except JsError ParsedArgs

/-- Body of `CommandRunner.addCommands`: for each spec of the group in
order, compare its normalized name against every spec already in the
registry (which grows as the group is consumed) and throw on a
duplicate; otherwise mark whether it is the first of the group and push
it.  The thrown `Error` is modelled by `Except.error` carrying its
message: a registration-time failure, structurally distinct from the
completion-callback outcomes of `run`. -/
def addCommandsAux (specs : List CommandSpec) (group : List CommandSpec)
    (firstOfGroup : Bool) : Except String (List CommandSpec) :=
  match group with
  | [] => .ok specs
  | s :: rest =>
    if specs.any (fun prior => prior.normName = s.normName) then
      .error ("duplicate command name \x27" ++ s.normName ++ "\x27")
    else
      addCommandsAux (specs ++ [{ s with firstOfGroup := firstOfGroup }]) rest false

/-- `CommandRunner.addCommands(group)` applied to a registry state. -/
def CommandRunner.addCommands (specs : List CommandSpec) (group : List CommandSpec) :
    Except String (List CommandSpec) :=
  addCommandsAux specs group true

/-- The registry lookup inside `run`: a `forEach` that overwrites its
result on every spec whose `_normName` equals the folded name, so the
last match wins. -/
def findSpec (specs : List CommandSpec) (commandName : String) : Option CommandSpec :=
  specs.foldl (fun acc spec =>
    if spec.normName = commandName then some spec else acc) none

/-- The base minimist configuration seeded by `run`:
`{ boolean: ["h"], alias: { h: "help" } }`; `string` and `default` are
absent. -/
def baseConfig : ToOpts :=
  { boolean := ["h"], aliases := [("h", "help")], string := none, default := none }

/-- `CommandRunner.getHelpIntro`. -/
def getHelpIntro (rightMargin : Nat) : String :=
  "This tool supports the following commands:\n"

/-- `CommandRunner.getHelpTrailer`. -/
def getHelpTrailer (rightMargin : Nat) : String := "\n"

/-- `CommandRunner.getHelpSummaryEntry`: the command name upper-cased
followed by the syntax minus its leading name, a newline, the summary
indented two spaces and wrapped, and a final newline. -/
def getHelpSummaryEntry (env : Env) (spec : CommandSpec) (rightMargin : Nat) : String :=
  let stx2 := jsSubstr spec.stx (jsLength spec.name)
  let summary := env.wrapText ("  " ++ spec.summary) rightMargin
  jsToUpper spec.name ++ stx2 ++ "\n" ++ summary ++ "\n"

/-- `CommandRunner.getHelp`: "Help is not available." when the registry
is empty; otherwise the intro, then for each spec (in registration
order) a blank separator line when it is the first of its group followed
by its summary entry, then the trailer. -/
def CommandRunner.getHelp (env : Env) (specs : List CommandSpec) (rightMargin : Nat) :
    String :=
  if specs.length = 0 then "Help is not available."
  else
    (specs.foldl (fun help spec =>
        help ++ (if spec.firstOfGroup then "\n" else "")
             ++ getHelpSummaryEntry env spec rightMargin)
      (getHelpIntro rightMargin))
    ++ getHelpTrailer rightMargin

/-- The default `CommandRunner.doDefaultCommand`: the (always present)
error it passes to `next` — a `CommandUsageError` "Missing command
argument" when at least one command is registered, else a plain `Error`
"Default command not implemented".  The `Option` is the error argument
of the single `next(...)` call; both branches pass one. -/
def CommandRunner.doDefaultCommand (specs : List CommandSpec) : Option JsError :=
  if specs.length > 0 then some (.commandUsageError "Missing command argument")
  else some (.plainError "Default command not implemented")

/-- The observable outcome of `CommandRunner.run`:
`callback err` — `next` was invoked with `err` before any hand-off, with
no help written and neither execution hook invoked;
`helpWritten text` — `text` was written to standard output and then
`next` was invoked with no error, with neither the validation hook nor
the execution hook invoked;
`raised e` — `e` propagated out of `run` uncaught;
`execCommand spec args` — control was handed to `doCommand(args, next)`
of the command created from `spec`;
`execDefault args` — control was handed to
`this.doDefaultCommand(args, next)`. -/
inductive RunResult where
  | callback (err : Option JsError)
  | helpWritten (text : String)
  | raised (e : JsError)
  | execCommand (spec : CommandSpec) (args : ParsedArgs)
  | execDefault (args : ParsedArgs)

/-- The named path of `run`, after a spec has been selected: create the
command, let it extend the base configuration, parse the remaining
arguments, short-circuit to help when the help flag is set, run
`parseArgs` catching only `CommandError`-kind raises, reject a leftover
positional with an `UnexpectedArgError`, and otherwise hand off to
`doCommand`. -/
def runNamed (env : Env) (runner : CommandRunner) (spec : CommandSpec)
    (rest : List String) : RunResult :=
  let command := spec.createCommand
  let config := command.addOptions baseConfig
  let args := env.minimist rest config
  if args.help then
    .helpWritten (env.wrapText (command.getHelp runner.helpWrapWidth)
                    runner.helpWrapWidth)
  else
    match command.parseArgs args with
    | .error e => if e.isCommandError then .callback (some e) else .raised e
    | .ok args2 =>
      match args2.positionals with
      | a :: _ => .callback (some (.unexpectedArgError a))
      | [] => .execCommand spec args2

/-- The default path of `run`: the dispatcher itself extends the base
configuration, the full argument vector is parsed, and the same
help/validation/leftover/execution pipeline runs against the
default-path hooks, with aggregate help on the help short-circuit. -/
def runDefault (env : Env) (runner : CommandRunner) (argv : List String) : RunResult :=
  let config := runner.addDefaultOptions baseConfig
  let args := env.minimist argv config
  if args.help then
    .helpWritten (env.wrapText
      (CommandRunner.getHelp env runner.commandSpecs runner.helpWrapWidth)
      runner.helpWrapWidth)
  else
    match runner.parseDefaultArgs args with
    | .error e => if e.isCommandError then .callback (some e) else .raised e
    | .ok args2 =>
      match args2.positionals with
      | a :: _ => .callback (some (.unexpectedArgError a))
      | [] => .execDefault args2

/-- `CommandRunner.run(argv, next)`: when the first argument exists and
does not begin with a dash it is case-folded and looked up in the
registry — not found completes with a usage error naming the folded
name, found proceeds down the named path with `argv` minus element 0;
otherwise the default path runs on the full `argv`. -/
def run (env : Env) (runner : CommandRunner) (argv : List String) : RunResult :=
  match argv with
  | [] => runDefault env runner []
  | a :: rest =>
    if a.data.head? = some '-' then runDefault env runner (a :: rest)
    else
      match findSpec runner.commandSpecs (jsToLower a) with
      | none =>
        .callback (some (.commandUsageError
          ("unrecognized command \x27" ++ jsToLower a ++ "\x27")))
      | some spec => runNamed env runner spec rest

/-- What the demo's completion callback (`demo/index.ts`) does with the
error it receives. -/
inductive DemoAction where
  | usageReport (msg : String)
  | errorReport (msg : String)
  | rethrown (e : JsError)
  | noop
deriving DecidableEq

/-- The demo's `run` callback: a `CommandUsageError` is reported with a
help hint, any other `CommandError` is reported plainly, and anything
else is re-thrown as an uncaught defect. -/
def demoCallback (err : Option JsError) : DemoAction :=
  match err with
  | none => .noop
  | some e =>
    if e.isCommandUsageError then .usageReport (e.message ++ " (-h for help)\n")
    else if e.isCommandError then .errorReport (e.message ++ "\n")
    else .rethrown e

/-- Right-fold concatenation of a list of strings. -/
def concatAll (l : List String) : String := l.foldr (fun a b => a ++ b) ""

/-! Sample objects used by the concrete witnesses and counterexamples. -/

/-- An environment whose parser never sets the help flag and returns the
raw argument vector as positionals, and whose wrapper is the identity. -/
def plainEnv : Env :=
  { minimist := fun argv _ => { help := false, positionals := argv },
    wrapText := fun s _ => s }

/-- An environment whose parser always recognizes the help flag. -/
def helpEnv : Env :=
  { minimist := fun argv _ => { help := true, positionals := argv },
    wrapText := fun s _ => s }

/-- A handler with all hooks at their defaults. -/
def noopCommand : NamedCommand :=
  { addOptions := id, parseArgs := fun args => .ok args,
    getHelp := fun _ => "build help" }

/-- A handler whose `parseArgs` throws a plain (non-usage) `CommandError`. -/
def throwingCommand : NamedCommand :=
  { addOptions := id, parseArgs := fun _ => .error (.commandError "boom"),
    getHelp := fun _ => "fail help" }

/-- A registered spec named `build`. -/
def buildSpec : CommandSpec :=
  { name := "build", normName := "build", stx := "build",
    summary := "Builds the project", firstOfGroup := true,
    createCommand := noopCommand }

/-- A registered spec whose declared name has mixed case. -/
def mixedSpec : CommandSpec :=
  { name := "Build", normName := "build", stx := "Build SRC",
    summary := "Builds the project", firstOfGroup := true,
    createCommand := noopCommand }

/-- A registered spec whose handler's `parseArgs` throws. -/
def failSpec : CommandSpec :=
  { name := "fail", normName := "fail", stx := "fail",
    summary := "Always fails", firstOfGroup := true,
    createCommand := throwingCommand }

/-- A runner with the defaults of the base class and one `build` command. -/
def demoRunner : CommandRunner :=
  { commandSpecs := [buildSpec], helpWrapWidth := 80,
    addDefaultOptions := id, parseDefaultArgs := fun args => .ok args }

/-- A runner registering the mixed-case `Build` spec. -/
def mixedRunner : CommandRunner :=
  { commandSpecs := [mixedSpec], helpWrapWidth := 80,
    addDefaultOptions := id, parseDefaultArgs := fun args => .ok args }

/-- A runner registering the throwing `fail` spec. -/
def failRunner : CommandRunner :=
  { commandSpecs := [failSpec], helpWrapWidth := 80,
    addDefaultOptions := id, parseDefaultArgs := fun args => .ok args }

/-- A runner with an empty registry. -/
def emptyRunner : CommandRunner :=
  { commandSpecs := [], helpWrapWidth := 80,
    addDefaultOptions := id, parseDefaultArgs := fun args => .ok args }

/-- An accumulated configuration already carrying the alias
`v → verbose`. -/
def verboseToOpts : ToOpts :=
  { boolean := ["h"], aliases := [("h", "help"), ("v", "verbose")],
    string := none, default := none }

/-- A contributor redeclaring the alias key `v` with a different value. -/
def versionFromOpts : FromOpts :=
  { aliases := some [("v", "version")], boolean := none,
    string := none, default := none }

/-- An accumulated configuration already declaring boolean flag `v`. -/
def vBoolToOpts : ToOpts :=
  { boolean := ["h", "v"], aliases := [("h", "help")],
    string := none, default := none }

/-- A contributor declaring the same boolean flag `v`. -/
def vBoolFromOpts : FromOpts :=
  { aliases := none, boolean := some (.one "v"),
    string := none, default := none }

/-! ### Helper lemmas about association-list objects -/

theorem lookupKey_replaceAll (m : List (String × String)) (k v : String)
    (h : m.any (fun kv => kv.1 = k) = true) :
    lookupKey (m.map (fun kv => if kv.1 = k then (k, v) else kv)) k = some v := by
  induction m with
  | nil => simp at h
  | cons kv rest ih =>
    by_cases hk : kv.1 = k
    · simp [lookupKey, hk]
    · simp only [List.any_cons, Bool.or_eq_true, decide_eq_true_eq] at h
      rcases h with h | h
      · exact absurd h hk
      · simpa [lookupKey, hk] using ih h

theorem lookupKey_replaceAll_ne (m : List (String × String)) (k v k' : String)
    (h : k' ≠ k) :
    lookupKey (m.map (fun kv => if kv.1 = k then (k, v) else kv)) k' =
      lookupKey m k' := by
  induction m with
  | nil => rfl
  | cons kv rest ih =>
    by_cases hk : kv.1 = k
    · simp [lookupKey, hk, Ne.symm h, h, ih]
    · by_cases hk' : kv.1 = k' <;> simp [lookupKey, hk, hk', h, ih]

theorem lookupKey_append_pair (m : List (String × String)) (k v : String)
    (h : ∀ p ∈ m, p.1 ≠ k) :
    lookupKey (m ++ [(k, v)]) k = some v := by
  induction m with
  | nil => simp [lookupKey]
  | cons kv rest ih =>
    have h1 : kv.1 ≠ k := h kv (List.mem_cons_self _ _)
    simpa [lookupKey, h1] using ih (fun p hp => h p (List.mem_cons_of_mem _ hp))

theorem lookupKey_append_pair_ne (m : List (String × String)) (k v k' : String)
    (h : k' ≠ k) :
    lookupKey (m ++ [(k, v)]) k' = lookupKey m k' := by
  induction m with
  | nil => simp [lookupKey, Ne.symm h]
  | cons kv rest ih =>
    by_cases hk : kv.1 = k' <;> simp [lookupKey, hk, ih]

theorem lookupKey_setKey_self (m : List (String × String)) (k v : String) :
    lookupKey (setKey m k v) k = some v := by
  unfold setKey
  split
  case isTrue h => exact lookupKey_replaceAll m k v h
  case isFalse h =>
    apply lookupKey_append_pair
    intro p hp hpk
    exact h (by simp only [List.any_eq_true, decide_eq_true_eq]; exact ⟨p, hp, hpk⟩)

theorem lookupKey_setKey_ne (m : List (String × String)) (k v k' : String)
    (h : k' ≠ k) :
    lookupKey (setKey m k v) k' = lookupKey m k' := by
  unfold setKey
  split
  · exact lookupKey_replaceAll_ne m k v k' h
  · exact lookupKey_append_pair_ne m k v k' h

theorem lookupKey_eq_none_iff (m : List (String × String)) (k : String) :
    lookupKey m k = none ↔ ∀ p ∈ m, p.1 ≠ k := by
  induction m with
  | nil => simp [lookupKey]
  | cons kv rest ih =>
    by_cases hk : kv.1 = k
    · simp [lookupKey, hk]
    · simp [lookupKey, hk, ih]

theorem lookupKey_assignObj_of_not_mem (target source : List (String × String))
    (k : String) (h : ∀ p ∈ source, p.1 ≠ k) :
    lookupKey (assignObj target source) k = lookupKey target k := by
  induction source generalizing target with
  | nil => rfl
  | cons kv rest ih =>
    have h1 : kv.1 ≠ k := h kv (List.mem_cons_self _ _)
    show lookupKey (assignObj (setKey target kv.1 kv.2) rest) k = _
    rw [ih (setKey target kv.1 kv.2) (fun p hp => h p (List.mem_cons_of_mem _ hp))]
    exact lookupKey_setKey_ne _ _ _ _ (fun he => h1 he.symm)

theorem lookupKey_assignObj_of_mem (target source : List (String × String))
    (k v : String) (hnd : (source.map Prod.fst).Nodup)
    (h : lookupKey source k = some v) :
    lookupKey (assignObj target source) k = some v := by
  induction source generalizing target with
  | nil => simp [lookupKey] at h
  | cons kv rest ih =>
    simp only [List.map_cons, List.nodup_cons] at hnd
    by_cases hk : kv.1 = k
    · have hv : kv.2 = v := by simpa [lookupKey, hk] using h
      show lookupKey (assignObj (setKey target kv.1 kv.2) rest) k = some v
      rw [lookupKey_assignObj_of_not_mem _ rest k
        (fun p hp hpk => hnd.1 (hk ▸ hpk ▸ List.mem_map_of_mem Prod.fst hp))]
      rw [hk, lookupKey_setKey_self, hv]
    · have h' : lookupKey rest k = some v := by simpa [lookupKey, hk] using h
      exact ih (setKey target kv.1 kv.2) hnd.2 h'

theorem lookupKey_assignObj_eq_none_iff (target source : List (String × String))
    (k : String) :
    lookupKey (assignObj target source) k = none ↔
      (lookupKey target k = none ∧ lookupKey source k = none) := by
  induction source generalizing target with
  | nil => simp [assignObj, lookupKey]
  | cons kv rest ih =>
    show lookupKey (assignObj (setKey target kv.1 kv.2) rest) k = none ↔ _
    rw [ih]
    by_cases hk : kv.1 = k
    · rw [hk, lookupKey_setKey_self]
      simp [lookupKey, hk]
    · rw [lookupKey_setKey_ne _ _ _ _ (fun he => hk he.symm)]
      simp [lookupKey, hk]

/-! ### Helper lemmas about registry lookup and registration -/

theorem findSpec_foldl_const (specs : List CommandSpec) (nm : String)
    (acc : Option CommandSpec) (h : ∀ s ∈ specs, s.normName ≠ nm) :
    specs.foldl (fun acc spec =>
      if spec.normName = nm then some spec else acc) acc = acc := by
  induction specs generalizing acc with
  | nil => rfl
  | cons s rest ih =>
    rw [List.foldl_cons, if_neg (h s (List.mem_cons_self _ _))]
    exact ih acc (fun t ht => h t (List.mem_cons_of_mem _ ht))

theorem findSpec_eq_some (specs : List CommandSpec) (spec : CommandSpec)
    (hmem : spec ∈ specs) (hnd : (specs.map CommandSpec.normName).Nodup) :
    findSpec specs spec.normName = some spec := by
  induction specs with
  | nil => cases hmem
  | cons s rest ih =>
    simp only [List.map_cons, List.nodup_cons] at hnd
    rcases List.mem_cons.mp hmem with h | h
    · subst h
      show rest.foldl _ (if spec.normName = spec.normName then some spec else none)
        = some spec
      rw [if_pos rfl]
      exact findSpec_foldl_const rest spec.normName (some spec)
        (fun t ht hte => hnd.1 (hte ▸ List.mem_map_of_mem _ ht))
    · have hne : s.normName ≠ spec.normName :=
        fun he => hnd.1 (he ▸ List.mem_map_of_mem _ h)
      show rest.foldl _ (if s.normName = spec.normName then some s else none)
        = some spec
      rw [if_neg hne]
      exact ih h hnd.2

theorem addCommandsAux_error_of_dup (group : List CommandSpec) :
    ∀ (specs : List CommandSpec) (b : Bool),
    (∃ s ∈ group, ∃ p ∈ specs, p.normName = s.normName) →
    ∃ msg, addCommandsAux specs group b = .error msg := by
  induction group with
  | nil =>
    rintro specs b ⟨s, hs, -⟩
    cases hs
  | cons g rest ih =>
    rintro specs b ⟨s, hs, p, hp, hpn⟩
    by_cases hany : specs.any (fun prior => prior.normName = g.normName) = true
    · refine ⟨"duplicate command name \x27" ++ g.normName ++ "\x27", ?_⟩
      simp [addCommandsAux, hany]
    · rcases List.mem_cons.mp hs with h | h
      · rw [h] at hpn
        have hc : specs.any (fun prior => prior.normName = g.normName) = true := by
          simp only [List.any_eq_true, decide_eq_true_eq]
          exact ⟨p, hp, hpn⟩
        exact absurd hc hany
      · obtain ⟨msg, hmsg⟩ := ih (specs ++ [{ g with firstOfGroup := b }]) false
          ⟨s, h, p, List.mem_append_left _ hp, hpn⟩
        refine ⟨msg, ?_⟩
        simp only [addCommandsAux, if_neg hany]
        exact hmsg

/-! ### Helper lemmas about help concatenation -/

theorem foldl_append_eq_concatAll {α : Type} (g : α → String) (l : List α)
    (init : String) :
    l.foldl (fun h s => h ++ g s) init = init ++ concatAll (l.map g) := by
  induction l generalizing init with
  | nil =>
    show init = init ++ concatAll []
    rw [show concatAll [] = "" from rfl, String.append_empty]
  | cons a rest ih =>
    rw [List.foldl_cons, ih, List.map_cons,
        show concatAll (g a :: rest.map g) = g a ++ concatAll (rest.map g) from rfl,
        ← String.append_assoc]

/-! ### Helper lemmas about the option merge and the constructor -/

theorem assignObj_nil (target : List (String × String)) :
    assignObj target [] = target := rfl

theorem addOptions_fields (toOptions : ToOpts) (fromOptions : FromOpts) :
    (CommandUtil.addOptions toOptions fromOptions).boolean
      = toOptions.boolean ++ fromOptions.boolNames ∧
    (CommandUtil.addOptions toOptions fromOptions).string.getD []
      = toOptions.string.getD [] ++ fromOptions.stringNames ∧
    (CommandUtil.addOptions toOptions fromOptions).aliases
      = assignObj toOptions.aliases (fromOptions.aliases.getD []) ∧
    (CommandUtil.addOptions toOptions fromOptions).default.getD []
      = assignObj (toOptions.default.getD []) (fromOptions.default.getD []) := by
  rcases fromOptions with ⟨fa, fb, fs, fd⟩
  rcases fa with _ | fa <;> rcases fb with _ | (s | l) <;>
    rcases fd with _ | fd <;> rcases fs with _ | (s2 | l2) <;>
    simp [CommandUtil.addOptions, FromOpts.boolNames, FromOpts.stringNames,
          assignObj_nil]

/-- Specs built by the `CommandSpec` constructor have their normalized
name equal to the case-folding of their name. -/
theorem make_normName (stx summary : String) (create : NamedCommand)
    (spec : CommandSpec) (h : CommandSpec.make stx summary create = .ok spec) :
    spec.normName = jsToLower spec.name := by
  unfold CommandSpec.make at h
  split at h
  · cases h
  · split at h
    · cases h
    · cases h
      rfl

/-! ### Unfolding lemmas for `run` -/

theorem run_nil (env : Env) (runner : CommandRunner) :
    run env runner [] = runDefault env runner [] := rfl

theorem run_cons (env : Env) (runner : CommandRunner) (a : String)
    (rest : List String) :
    run env runner (a :: rest) =
      (if a.data.head? = some '-' then runDefault env runner (a :: rest)
       else
         match findSpec runner.commandSpecs (jsToLower a) with
         | none =>
           .callback (some (.commandUsageError
             ("unrecognized command \x27" ++ jsToLower a ++ "\x27")))
         | some spec => runNamed env runner spec rest) := rfl

/-! ### Claims -/

/-- C6: the registry keeps normalized command names globally unique: for
any registry state reached by prior `addCommands` calls, adding a group
containing a spec whose normalized name equals that of an
already-registered spec makes `addCommands` throw (an `Except.error`, the
model of a thrown registration-time `Error`) — a setup-time failure that
is structurally distinct from the `RunResult` completion-callback
outcomes of `run` and so is never routed through a completion
callback. -/
theorem addCommands_duplicate_fails (specs group : List CommandSpec)
    (h : ∃ s ∈ group, ∃ p ∈ specs, p.normName = s.normName) :
    ∃ msg, CommandRunner.addCommands specs group = .error msg :=
  addCommandsAux_error_of_dup group specs true h

/-- Witness for C6: registering a second spec with normalized name
`"build"` when one is already registered fails. -/
theorem addCommands_duplicate_fails_witness :
    ∃ msg, CommandRunner.addCommands [buildSpec] [mixedSpec] = .error msg :=
  addCommands_duplicate_fails [buildSpec] [mixedSpec]
    ⟨mixedSpec, List.mem_cons_self _ _, buildSpec, List.mem_cons_self _ _, rfl⟩

/-- C8: the dispatcher's default `doDefaultCommand` passes a
`CommandUsageError` with message "Missing command argument" to the
completion callback whenever at least one command is registered, a plain
(non-`CommandError`) error "Default command not implemented" when none
is, and never completes without an error. -/
theorem doDefaultCommand_behavior (specs : List CommandSpec) :
    (specs ≠ [] →
      CommandRunner.doDefaultCommand specs =
        some (.commandUsageError "Missing command argument")) ∧
    (specs = [] →
      CommandRunner.doDefaultCommand specs =
        some (.plainError "Default command not implemented")) ∧
    CommandRunner.doDefaultCommand specs ≠ none := by
  unfold CommandRunner.doDefaultCommand
  refine ⟨fun h => ?_, fun h => ?_, ?_⟩
  · rw [if_pos (List.length_pos.mpr h)]
  · subst h; rfl
  · split <;> simp

/-- Witness for C8 at a one-command registry and at the empty registry. -/
theorem doDefaultCommand_behavior_witness :
    CommandRunner.doDefaultCommand [buildSpec] =
      some (.commandUsageError "Missing command argument") ∧
    CommandRunner.doDefaultCommand [] =
      some (.plainError "Default command not implemented") :=
  ⟨(doDefaultCommand_behavior [buildSpec]).1 (by simp),
   (doDefaultCommand_behavior []).2.1 rfl⟩

/-- C10: the "not implemented" error of the default `doDefaultCommand` is
a plain `Error`, not a `CommandError` (and hence not a
`CommandUsageError`), so the framework's own demo callback — which
reports `CommandUsageError` and `CommandError` and re-throws anything
else — classifies it as an uncaught defect (`rethrown`), not a
recoverable command failure. -/
theorem default_not_implemented_is_plain :
    CommandRunner.doDefaultCommand [] =
      some (.plainError "Default command not implemented") ∧
    (JsError.plainError "Default command not implemented").isCommandError
      = false ∧
    (JsError.plainError "Default command not implemented").isCommandUsageError
      = false ∧
    demoCallback (CommandRunner.doDefaultCommand []) =
      .rethrown (.plainError "Default command not implemented") :=
  ⟨rfl, rfl, rfl, rfl⟩

/-- Counterexample to C9 as stated: for the empty registry state,
`getHelp` returns the fixed string "Help is not available.", not the
intro-entries-trailer concatenation the claim asserts for every registry
state. -/
theorem getHelp_empty_counterexample :
    CommandRunner.getHelp plainEnv [] 80 = "Help is not available." ∧
    CommandRunner.getHelp plainEnv [] 80 ≠
      getHelpIntro 80 ++
      concatAll (([] : List CommandSpec).map (fun spec =>
        (if spec.firstOfGroup then "\n" else "")
          ++ getHelpSummaryEntry plainEnv spec 80)) ++
      getHelpTrailer 80 := by
  exact ⟨rfl, by decide⟩

/-- C9 (amended to registries with at least one registered spec): the
aggregate `getHelp` is the introductory paragraph, then for each
registered spec in registration order a blank separator line when it is
the first of its group followed by its name-plus-syntax line and wrapped
summary (`getHelpSummaryEntry`), then the trailing separator. -/
theorem getHelp_structure (env : Env) (specs : List CommandSpec) (w : Nat)
    (h : specs ≠ []) :
    CommandRunner.getHelp env specs w =
      getHelpIntro w ++
      concatAll (specs.map (fun spec =>
        (if spec.firstOfGroup then "\n" else "")
          ++ getHelpSummaryEntry env spec w)) ++
      getHelpTrailer w := by
  unfold CommandRunner.getHelp
  rw [if_neg (fun hh => h (List.length_eq_zero.mp hh))]
  congr 1
  have hfun : (fun (help : String) (spec : CommandSpec) =>
      help ++ (if spec.firstOfGroup then "\n" else "")
           ++ getHelpSummaryEntry env spec w)
      = fun (help : String) spec =>
          help ++ ((if spec.firstOfGroup then "\n" else "")
                   ++ getHelpSummaryEntry env spec w) := by
    funext help spec
    rw [String.append_assoc]
  rw [hfun, foldl_append_eq_concatAll]

/-- Witness for C9's amended claim at a concrete one-spec registry. -/
theorem getHelp_structure_witness :
    CommandRunner.getHelp plainEnv [buildSpec] 80 =
      getHelpIntro 80 ++
      concatAll ([buildSpec].map (fun spec =>
        (if spec.firstOfGroup then "\n" else "")
          ++ getHelpSummaryEntry plainEnv spec 80)) ++
      getHelpTrailer 80 :=
  getHelp_structure plainEnv [buildSpec] 80 (by simp)

/-- C1: on the named path, when the selected command's `parseArgs` returns
normally but leaves `args._` non-empty, `run` invokes the completion
callback with an `UnexpectedArgError` carrying the first leftover
positional's literal text, and does not invoke the command's `doCommand`
hook (the outcome is `callback`, never `execCommand`). -/
theorem run_rejects_leftover_positional (env : Env) (runner : CommandRunner)
    (a : String) (rest : List String) (spec : CommandSpec) (args2 : ParsedArgs)
    (p : String) (ps : List String)
    (hdash : a.data.head? ≠ some '-')
    (hfind : findSpec runner.commandSpecs (jsToLower a) = some spec)
    (hhelp : (env.minimist rest (spec.createCommand.addOptions baseConfig)).help
      = false)
    (hparse : spec.createCommand.parseArgs
      (env.minimist rest (spec.createCommand.addOptions baseConfig)) = .ok args2)
    (hleft : args2.positionals = p :: ps) :
    run env runner (a :: rest) = .callback (some (.unexpectedArgError p)) ∧
    ∀ s args3, run env runner (a :: rest) ≠ .execCommand s args3 := by
  have hrun : run env runner (a :: rest) = runNamed env runner spec rest := by
    rw [run_cons, if_neg hdash, hfind]
  have hnamed : runNamed env runner spec rest
      = .callback (some (.unexpectedArgError p)) := by
    simp [runNamed, hhelp, hparse, hleft]
  refine ⟨hrun.trans hnamed, fun s args3 hc => ?_⟩
  rw [hrun, hnamed] at hc
  cases hc

/-- Witness for C1: the spec's own scenario, `run(["build", "extra"])` on
a command whose default `parseArgs` consumes nothing. -/
theorem run_rejects_leftover_positional_witness :
    run plainEnv demoRunner ["build", "extra"] =
      .callback (some (.unexpectedArgError "extra")) :=
  (run_rejects_leftover_positional plainEnv demoRunner "build" ["extra"]
    buildSpec { help := false, positionals := ["extra"] } "extra" []
    (by decide) rfl rfl rfl rfl).1

/-- C2: whenever the option parser recognizes the help flag, `run` writes
help text — the command's `getHelp` on the named path, the dispatcher's
aggregate `getHelp` on the default path, wrapped at the configured
width — to standard output and completes with no error (`helpWritten`),
and neither the validation hook nor the execution hook is invoked (the
model only reaches `parseArgs`/`parseDefaultArgs` and the `exec`
outcomes through the non-help branch). -/
theorem help_flag_short_circuits (env : Env) (runner : CommandRunner) :
    (∀ (a : String) (rest : List String) (spec : CommandSpec),
      a.data.head? ≠ some '-' →
      findSpec runner.commandSpecs (jsToLower a) = some spec →
      (env.minimist rest (spec.createCommand.addOptions baseConfig)).help = true →
      run env runner (a :: rest) =
        .helpWritten (env.wrapText
          (spec.createCommand.getHelp runner.helpWrapWidth) runner.helpWrapWidth)) ∧
    (∀ argv : List String,
      (argv = [] ∨ ∃ a rest, argv = a :: rest ∧ a.data.head? = some '-') →
      (env.minimist argv (runner.addDefaultOptions baseConfig)).help = true →
      run env runner argv =
        .helpWritten (env.wrapText
          (CommandRunner.getHelp env runner.commandSpecs runner.helpWrapWidth)
          runner.helpWrapWidth)) := by
  constructor
  · intro a rest spec hdash hfind hhelp
    have hrun : run env runner (a :: rest) = runNamed env runner spec rest := by
      rw [run_cons, if_neg hdash, hfind]
    rw [hrun]
    simp [runNamed, hhelp]
  · intro argv hdef hhelp
    have hrun : run env runner argv = runDefault env runner argv := by
      rcases hdef with h | ⟨a, rest, h, hd⟩
      · rw [h, run_nil]
      · rw [h, run_cons, if_pos hd]
    rw [hrun]
    simp [runDefault, hhelp]

/-- Witness for C2: a parser that recognizes `-h` makes `run` short-circuit
to help on both the named path and the default path. -/
theorem help_flag_short_circuits_witness :
    run helpEnv demoRunner ["build"] = .helpWritten "build help" ∧
    run helpEnv demoRunner [] =
      .helpWritten (CommandRunner.getHelp helpEnv [buildSpec] 80) := by
  constructor
  · exact (help_flag_short_circuits helpEnv demoRunner).1 "build" [] buildSpec
      (by decide) rfl rfl
  · exact (help_flag_short_circuits helpEnv demoRunner).2 [] (Or.inl rfl) rfl

/-- Counterexample to C3 as stated: the claim says a raised failure that
is not of a usage-error kind propagates out of `run` uncaught, but the
code catches every `CommandError` (`err instanceof Errors.CommandError`).
A `parseArgs` raising a plain `CommandError` — not a usage error — is
caught and passed to the completion callback, not propagated. -/
theorem parse_error_counterexample :
    run plainEnv failRunner ["fail"] = .callback (some (.commandError "boom")) ∧
    (JsError.commandError "boom").isCommandUsageError = false :=
  ⟨rfl, rfl⟩

/-- C3 (amended): when the validation hook raises, `run` catches a
`CommandError`-kind failure (usage errors included) and forwards exactly
that error object to the completion callback, while any raised failure
that is not of a `CommandError` kind propagates out of `run` uncaught. -/
theorem parse_error_forwarding (env : Env) (runner : CommandRunner) :
    (∀ (a : String) (rest : List String) (spec : CommandSpec) (e : JsError),
      a.data.head? ≠ some '-' →
      findSpec runner.commandSpecs (jsToLower a) = some spec →
      (env.minimist rest (spec.createCommand.addOptions baseConfig)).help = false →
      spec.createCommand.parseArgs
        (env.minimist rest (spec.createCommand.addOptions baseConfig)) = .error e →
      run env runner (a :: rest) =
        (if e.isCommandError then .callback (some e) else .raised e)) ∧
    (∀ (argv : List String) (e : JsError),
      (argv = [] ∨ ∃ a rest, argv = a :: rest ∧ a.data.head? = some '-') →
      (env.minimist argv (runner.addDefaultOptions baseConfig)).help = false →
      runner.parseDefaultArgs
        (env.minimist argv (runner.addDefaultOptions baseConfig)) = .error e →
      run env runner argv =
        (if e.isCommandError then .callback (some e) else .raised e)) := by
  constructor
  · intro a rest spec e hdash hfind hhelp hparse
    have hrun : run env runner (a :: rest) = runNamed env runner spec rest := by
      rw [run_cons, if_neg hdash, hfind]
    rw [hrun]
    simp [runNamed, hhelp, hparse]
  · intro argv e hdef hhelp hparse
    have hrun : run env runner argv = runDefault env runner argv := by
      rcases hdef with h | ⟨a, rest, h, hd⟩
      · rw [h, run_nil]
      · rw [h, run_cons, if_pos hd]
    rw [hrun]
    simp [runDefault, hhelp, hparse]

/-- Witness for C3's amended claim: the caught-and-forwarded side at a
`parseArgs` raising a plain `CommandError`. -/
theorem parse_error_forwarding_witness :
    run plainEnv failRunner ["fail"] = .callback (some (.commandError "boom")) :=
  (parse_error_forwarding plainEnv failRunner).1 "fail" [] failSpec
    (.commandError "boom") (by decide) rfl rfl rfl

/-- C4: lookup compares the case-folded first argument against each
spec's normalized name (itself the case-folded declared name, per the
`CommandSpec` constructor), so any letter-case variant of a registered
name — any `v` with the same case-folding as the declared name, supplied
as a non-dash first element — selects that same spec, and `run` proceeds
down the named path with `argv` minus element 0. -/
theorem case_insensitive_lookup (env : Env) (runner : CommandRunner)
    (spec : CommandSpec) (v : String) (rest : List String)
    (hnorm : spec.normName = jsToLower spec.name)
    (hmem : spec ∈ runner.commandSpecs)
    (hnd : (runner.commandSpecs.map CommandSpec.normName).Nodup)
    (hvar : jsToLower v = jsToLower spec.name)
    (hdash : v.data.head? ≠ some '-') :
    run env runner (v :: rest) = runNamed env runner spec rest := by
  rw [run_cons, if_neg hdash, hvar, ← hnorm,
      findSpec_eq_some runner.commandSpecs spec hmem hnd]

/-- Witness for C4: the all-caps variant `"BUILD"` of the registered
mixed-case name `"Build"` selects that spec. -/
theorem case_insensitive_lookup_witness :
    run plainEnv mixedRunner ["BUILD"] = runNamed plainEnv mixedRunner mixedSpec [] :=
  case_insensitive_lookup plainEnv mixedRunner mixedSpec "BUILD" []
    (by decide) (List.mem_cons_self _ _) (by decide) (by decide) (by decide)

/-- Counterexample to C7 as stated: the lookup failure message embeds
the case-folded command name, not the literal first element: for
`run(["Bogus"])` the message is `unrecognized command 'bogus'`, which
does not contain the supplied text `Bogus`. -/
theorem unrecognized_command_counterexample :
    run plainEnv emptyRunner ["Bogus"] =
      .callback (some (.commandUsageError "unrecognized command \x27bogus\x27")) ∧
    ¬ ("Bogus".data <:+: "unrecognized command \x27bogus\x27".data) :=
  ⟨rfl, by decide⟩

/-- C7 (amended): for every argv whose first element does not begin with
a dash and whose case-folded form matches no registered spec's
normalized name, `run` invokes the completion callback with a
`CommandUsageError` whose message contains the case-folded command name,
and no handler is instantiated or executed (the outcome is `callback`,
produced before any `createCommand` call). -/
theorem unrecognized_command_usage_error (env : Env) (runner : CommandRunner)
    (a : String) (rest : List String)
    (hdash : a.data.head? ≠ some '-')
    (hnone : findSpec runner.commandSpecs (jsToLower a) = none) :
    run env runner (a :: rest) =
      .callback (some (.commandUsageError
        ("unrecognized command \x27" ++ jsToLower a ++ "\x27"))) ∧
    (jsToLower a).data <:+:
      ("unrecognized command \x27" ++ jsToLower a ++ "\x27").data := by
  constructor
  · rw [run_cons, if_neg hdash, hnone]
  · exact ⟨"unrecognized command \x27".data, "\x27".data, rfl⟩

/-- Witness for C7's amended claim: the spec's own scenario
`run(["bogus"])` against an empty registry. -/
theorem unrecognized_command_usage_error_witness :
    run plainEnv emptyRunner ["bogus"] =
      .callback (some (.commandUsageError "unrecognized command \x27bogus\x27")) :=
  (unrecognized_command_usage_error plainEnv emptyRunner "bogus" []
    (by decide) rfl).1

/-- Counterexample to C5 as stated: the claim requires every setting
present in the destination to still be present after the merge, for the
alias category among others; but the merge applies `Object.assign`, so a
contributor redeclaring alias key `v` with a different value overwrites
the destination's `v → verbose` binding, which is lost. -/
theorem addOptions_overwrite_counterexample :
    ("v", "verbose") ∈ verboseToOpts.aliases ∧
    ("v", "verbose") ∉ (CommandUtil.addOptions verboseToOpts versionFromOpts).aliases ∧
    lookupKey (CommandUtil.addOptions verboseToOpts versionFromOpts).aliases "v"
      = some "version" := by
  decide

/-- C5 (amended): the merge is additive and error-free at the level of
declared settings, except that an alias or default key redeclared by the
source takes the source's value.  Concretely: the merged boolean and
string name sets are the unions of both sides' names (so a flag declared
by two contributors is kept once at the set level — an idempotent union,
not a loss or a duplicate-entry defect); an alias/default key is absent
from the merge exactly when absent from both sides; a destination
alias/default binding whose key the source does not declare is
unchanged; and every source alias/default binding is present in the
merge with the source's value. -/
theorem addOptions_additive (toOptions : ToOpts) (fromOptions : FromOpts)
    (hnda : ((fromOptions.aliases.getD []).map Prod.fst).Nodup)
    (hndd : ((fromOptions.default.getD []).map Prod.fst).Nodup) :
    (∀ x, x ∈ (CommandUtil.addOptions toOptions fromOptions).boolean ↔
      (x ∈ toOptions.boolean ∨ x ∈ fromOptions.boolNames)) ∧
    (∀ x, x ∈ (CommandUtil.addOptions toOptions fromOptions).string.getD [] ↔
      (x ∈ toOptions.string.getD [] ∨ x ∈ fromOptions.stringNames)) ∧
    (∀ k, lookupKey (CommandUtil.addOptions toOptions fromOptions).aliases k = none
      ↔ (lookupKey toOptions.aliases k = none ∧
         lookupKey (fromOptions.aliases.getD []) k = none)) ∧
    (∀ k, lookupKey (fromOptions.aliases.getD []) k = none →
      lookupKey (CommandUtil.addOptions toOptions fromOptions).aliases k
        = lookupKey toOptions.aliases k) ∧
    (∀ k v, lookupKey (fromOptions.aliases.getD []) k = some v →
      lookupKey (CommandUtil.addOptions toOptions fromOptions).aliases k
        = some v) ∧
    (∀ k, lookupKey ((CommandUtil.addOptions toOptions fromOptions).default.getD []) k
        = none
      ↔ (lookupKey (toOptions.default.getD []) k = none ∧
         lookupKey (fromOptions.default.getD []) k = none)) ∧
    (∀ k, lookupKey (fromOptions.default.getD []) k = none →
      lookupKey ((CommandUtil.addOptions toOptions fromOptions).default.getD []) k
        = lookupKey (toOptions.default.getD []) k) ∧
    (∀ k v, lookupKey (fromOptions.default.getD []) k = some v →
      lookupKey ((CommandUtil.addOptions toOptions fromOptions).default.getD []) k
        = some v) := by
  obtain ⟨hb, hs, ha, hd⟩ := addOptions_fields toOptions fromOptions
  refine ⟨?_, ?_, ?_, ?_, ?_, ?_, ?_, ?_⟩
  · intro x
    rw [hb, List.mem_append]
  · intro x
    rw [hs, List.mem_append]
  · intro k
    rw [ha]
    exact lookupKey_assignObj_eq_none_iff _ _ k
  · intro k hk
    rw [ha]
    exact lookupKey_assignObj_of_not_mem _ _ k ((lookupKey_eq_none_iff _ _).mp hk)
  · intro k v hk
    rw [ha]
    exact lookupKey_assignObj_of_mem _ _ k v hnda hk
  · intro k
    rw [hd]
    exact lookupKey_assignObj_eq_none_iff _ _ k
  · intro k hk
    rw [hd]
    exact lookupKey_assignObj_of_not_mem _ _ k ((lookupKey_eq_none_iff _ _).mp hk)
  · intro k v hk
    rw [hd]
    exact lookupKey_assignObj_of_mem _ _ k v hndd hk

/-- Witness for C5's amended claim: two contributors both declaring
boolean flag `v` — the flag is kept, nothing is dropped, and the
pre-existing `h` flag survives. -/
theorem addOptions_additive_witness :
    ("v" ∈ (CommandUtil.addOptions vBoolToOpts vBoolFromOpts).boolean) ∧
    ("h" ∈ (CommandUtil.addOptions vBoolToOpts vBoolFromOpts).boolean) := by
  have h := (addOptions_additive vBoolToOpts vBoolFromOpts
    (by decide) (by decide)).1
  exact ⟨(h "v").mpr (Or.inr (by decide)), (h "h").mpr (Or.inl (by decide))⟩

end Munchies
